import Mathlib

/-
  A formal model of the BebeFlix media library application.

  The development shallowly embeds the parts of the source that the
  verified properties talk about:

  * the SQLite catalog store for movies / shows / seasons / episodes
    (src/BebeFlix/database.py and the movie-only variant src/database.py);
  * the ffmpeg transcode worker thread (src/utils/compression.py);
  * the sequential batch episode import flow (src/ui/add_movie_dialog.py);
  * the title slug helper (src/utils/paths.py).

  SQLite specifics are modelled as follows: tables are lists of row
  records kept in rowid (insertion) order, since every insert in the
  source appends with an AUTOINCREMENT key and every scan without an
  ORDER BY visits rows in rowid order.  ORDER BY is modelled as a stable
  sort on the requested key (SQLite performs a full scan in rowid order
  followed by its stable sorter).  SQLite LOWER is ASCII-only, which
  matches Char.toLower.  REAL columns are modelled as rationals; only
  order comparisons on them are ever used.
-/

namespace BebeLib

/-! ### Stable ORDER BY model -/

/-- The ordering used to model an ORDER BY on a key column, in either
direction, with ties broken by rowid order (SQLite scans the table in
rowid order and its sorter is stable). -/
def stableOrd {α : Type} {κ : Type} [LinearOrder κ] (key : α → κ) (idx : α → Nat)
    (asc : Bool) : α → α → Prop := fun a b =>
  match asc with
  | true => key a < key b ∨ (key a = key b ∧ idx a ≤ idx b)
  | false => key b < key a ∨ (key b = key a ∧ idx a ≤ idx b)

instance stableOrdDecidable {α : Type} {κ : Type} [LinearOrder κ] (key : α → κ)
    (idx : α → Nat) : (asc : Bool) → DecidableRel (stableOrd key idx asc)
  | true => fun a b =>
    inferInstanceAs (Decidable (key a < key b ∨ (key a = key b ∧ idx a ≤ idx b)))
  | false => fun a b =>
    inferInstanceAs (Decidable (key b < key a ∨ (key b = key a ∧ idx a ≤ idx b)))

instance stableOrdTotal {α : Type} {κ : Type} [LinearOrder κ] (key : α → κ)
    (idx : α → Nat) (asc : Bool) : IsTotal α (stableOrd key idx asc) := by
  constructor
  intro a b
  cases asc <;> simp only [stableOrd] <;>
    rcases lt_trichotomy (key a) (key b) with h | h | h
  · exact Or.inr (Or.inl h)
  · rcases Nat.le_total (idx a) (idx b) with hi | hi
    · exact Or.inl (Or.inr ⟨h.symm, hi⟩)
    · exact Or.inr (Or.inr ⟨h, hi⟩)
  · exact Or.inl (Or.inl h)
  · exact Or.inl (Or.inl h)
  · rcases Nat.le_total (idx a) (idx b) with hi | hi
    · exact Or.inl (Or.inr ⟨h, hi⟩)
    · exact Or.inr (Or.inr ⟨h.symm, hi⟩)
  · exact Or.inr (Or.inl h)

instance stableOrdTrans {α : Type} {κ : Type} [LinearOrder κ] (key : α → κ)
    (idx : α → Nat) (asc : Bool) : IsTrans α (stableOrd key idx asc) := by
  constructor
  intro a b c hab hbc
  cases asc <;> simp only [stableOrd] at *
  · rcases hab with hab | ⟨he, hi⟩ <;> rcases hbc with hbc | ⟨he2, hi2⟩
    · exact Or.inl (lt_trans hbc hab)
    · exact Or.inl (lt_of_eq_of_lt he2 hab)
    · exact Or.inl (lt_of_lt_of_eq hbc he)
    · exact Or.inr ⟨he2.trans he, Nat.le_trans hi hi2⟩
  · rcases hab with hab | ⟨he, hi⟩ <;> rcases hbc with hbc | ⟨he2, hi2⟩
    · exact Or.inl (lt_trans hab hbc)
    · exact Or.inl (lt_of_lt_of_eq hab he2)
    · exact Or.inl (lt_of_eq_of_lt he hbc)
    · exact Or.inr ⟨he.trans he2, Nat.le_trans hi hi2⟩

/-- A sorted permutation is unique, assuming antisymmetry only on the
members of the list (the relations we sort by are antisymmetric on any
list whose rowids are distinct, but not globally). -/
theorem eq_of_perm_of_sorted_mem {α : Type} {r : α → α → Prop} :
    ∀ {l₁ l₂ : List α}, l₁.Perm l₂ → l₁.Sorted r → l₂.Sorted r →
      (∀ a ∈ l₁, ∀ b ∈ l₁, r a b → r b a → a = b) → l₁ = l₂
  | [], l₂, hp, _, _, _ => hp.nil_eq
  | a :: t, l₂, hp, hs₁, hs₂, hanti => by
    match l₂, hp with
    | [], hp => exact absurd (List.perm_nil.mp hp) (List.cons_ne_nil a t)
    | b :: t₂, hp =>
      have hab : a = b := by
        have hal₂ : a ∈ b :: t₂ := hp.subset (List.mem_cons_self a t)
        have hbl₁ : b ∈ a :: t := hp.symm.subset (List.mem_cons_self b t₂)
        rcases List.mem_cons.mp hal₂ with h₁ | h₁
        · exact h₁
        rcases List.mem_cons.mp hbl₁ with h₂ | h₂
        · exact h₂.symm
        have hr₁ : r a b := List.rel_of_sorted_cons hs₁ b h₂
        have hr₂ : r b a := List.rel_of_sorted_cons hs₂ a h₁
        exact hanti a (List.mem_cons_self a t) b hbl₁ hr₁ hr₂
      subst hab
      have htail : t.Perm t₂ := hp.cons_inv
      have : t = t₂ :=
        eq_of_perm_of_sorted_mem htail hs₁.of_cons hs₂.of_cons
          (fun x hx y hy => hanti x (List.mem_cons_of_mem a hx) y (List.mem_cons_of_mem a hy))
      rw [this]

/-! ### Catalog store (src/BebeFlix/database.py)

Row records mirror the table schemas; each table of the store is a
list of rows in rowid order, and the next AUTOINCREMENT key per table
is threaded in the state.  Subtitle rows are omitted: no verified
property mentions them and their per-movie lookup affects neither
selection nor ordering of any query modelled here. -/

structure MovieRow where
  id : Nat
  title : String
  moviePath : String
  thumbPath : String
  dateAdded : Nat
  lastPosition : Rat
  duration : Rat
  deriving DecidableEq

structure ShowRow where
  id : Nat
  title : String
  thumbPath : String
  dateAdded : Nat
  deriving DecidableEq

structure SeasonRow where
  id : Nat
  showId : Nat
  seasonNumber : Int
  dateAdded : Nat
  deriving DecidableEq

structure EpisodeRow where
  id : Nat
  seasonId : Nat
  episodeNumber : Int
  title : String
  moviePath : String
  lastPosition : Rat
  duration : Rat
  dateAdded : Nat
  deriving DecidableEq

structure DB where
  movies : List MovieRow
  shows : List ShowRow
  seasons : List SeasonRow
  episodes : List EpisodeRow
  nextMovieId : Nat
  nextShowId : Nat
  nextSeasonId : Nat
  nextEpisodeId : Nat
  deriving DecidableEq

/-- The empty catalog created by Database._init_db. -/
def DB.empty : DB := ⟨[], [], [], [], 1, 1, 1, 1⟩

/-- Database.add_movie: INSERT appends a row with the next rowid. -/
def DB.addMovie (db : DB) (title moviePath thumbPath : String) (now : Nat) : Nat × DB :=
  (db.nextMovieId,
   { db with
      movies := db.movies ++ [⟨db.nextMovieId, title, moviePath, thumbPath, now, 0, 0⟩]
      nextMovieId := db.nextMovieId + 1 })

/-- Database.add_show. -/
def DB.addShow (db : DB) (title thumbPath : String) (now : Nat) : Nat × DB :=
  (db.nextShowId,
   { db with
      shows := db.shows ++ [⟨db.nextShowId, title, thumbPath, now⟩]
      nextShowId := db.nextShowId + 1 })

/-- Database.add_season. -/
def DB.addSeason (db : DB) (showId : Nat) (seasonNumber : Int) (now : Nat) : Nat × DB :=
  (db.nextSeasonId,
   { db with
      seasons := db.seasons ++ [⟨db.nextSeasonId, showId, seasonNumber, now⟩]
      nextSeasonId := db.nextSeasonId + 1 })

/-- Database.add_episode. -/
def DB.addEpisode (db : DB) (seasonId : Nat) (episodeNumber : Int)
    (title moviePath : String) (now : Nat) : Nat × DB :=
  (db.nextEpisodeId,
   { db with
      episodes := db.episodes ++
        [⟨db.nextEpisodeId, seasonId, episodeNumber, title, moviePath, 0, 0, now⟩]
      nextEpisodeId := db.nextEpisodeId + 1 })

/-- SQLite LOWER: ASCII-only lowercasing.  The sort key is the
lowercased character sequence; SQLite compares TEXT values with the
default BINARY collation, i.e. bytewise, which on the ASCII fragment is
the lexicographic order on code points. -/
def lowerKey (s : String) : List Char := s.data.map Char.toLower

/-- Database.get_all_movies: SELECT * FROM movies ORDER BY
LOWER(title) ASC or DESC, or date_added ASC or DESC. -/
def DB.getAllMovies (db : DB) (sortBy : String) (asc : Bool) : List MovieRow :=
  if sortBy = "title" then
    List.insertionSort (stableOrd (fun m => lowerKey m.title) MovieRow.id asc) db.movies
  else
    List.insertionSort (stableOrd MovieRow.dateAdded MovieRow.id asc) db.movies

/-- A season row together with its episodes, as assembled by
Database._get_seasons. -/
structure SeasonTree where
  row : SeasonRow
  episodes : List EpisodeRow
  deriving DecidableEq

/-- A show row together with its seasons, as returned by
Database.get_show. -/
structure ShowTree where
  row : ShowRow
  seasons : List SeasonTree
  deriving DecidableEq

/-- The episode list of one season row: SELECT * FROM episodes WHERE
season_id = ? ORDER BY episode_number ASC. -/
def DB.episodesOf (db : DB) (seasonId : Nat) : List EpisodeRow :=
  List.insertionSort (stableOrd EpisodeRow.episodeNumber EpisodeRow.id true)
    (db.episodes.filter (fun e => decide (e.seasonId = seasonId)))

/-- Database._get_seasons: seasons of a show ordered by season_number,
each with its episodes attached. -/
def DB.seasonsOf (db : DB) (showId : Nat) : List SeasonTree :=
  (List.insertionSort (stableOrd SeasonRow.seasonNumber SeasonRow.id true)
      (db.seasons.filter (fun s => decide (s.showId = showId)))).map
    (fun s => ⟨s, db.episodesOf s.id⟩)

/-- Database.get_show: the row found by id, with its season tree. -/
def DB.getShow (db : DB) (showId : Nat) : Option ShowTree :=
  (db.shows.find? (fun r => decide (r.id = showId))).map
    (fun r => ⟨r, db.seasonsOf r.id⟩)

/-- SQL MAX over a list of values (NULL, i.e. none, on an empty set). -/
def maxOfList : List Int → Option Int
  | [] => none
  | x :: xs =>
    some (match maxOfList xs with
          | none => x
          | some m => max x m)

/-- Python truthiness fallback: the value of the expression
mx or 0, where mx is the (nullable) SQL MAX result. -/
def pyOrZero : Option Int → Int
  | none => 0
  | some v => if v = 0 then 0 else v

/-- Database.get_next_season_number: (MAX(season_number) or 0) + 1 over
the seasons of one show. -/
def DB.getNextSeasonNumber (db : DB) (showId : Nat) : Int :=
  pyOrZero (maxOfList ((db.seasons.filter (fun s => decide (s.showId = showId))).map
    SeasonRow.seasonNumber)) + 1

/-- Database.delete_show: fetch the snapshot first; if the id is
unknown return None and leave the store untouched, otherwise DELETE the
show row, which cascades (PRAGMA foreign_keys = ON, ON DELETE CASCADE)
to its season rows and to the episode rows of those seasons. -/
def DB.deleteShow (db : DB) (showId : Nat) : Option ShowTree × DB :=
  match db.getShow showId with
  | none => (none, db)
  | some tree =>
    (some tree,
     { db with
        shows := db.shows.filter (fun r => decide (r.id ≠ showId))
        seasons := db.seasons.filter (fun s => decide (s.showId ≠ showId))
        episodes := db.episodes.filter
          (fun e => decide (¬ ∃ s ∈ db.seasons, s.showId = showId ∧ s.id = e.seasonId)) })

/-! ### Continue-watching aggregator

The store variant used by src/ui/main_window.py offers
get_continue_watching, but that variant is not among the source files;
only its caller (MainWindow._refresh_continue_watching) is.  The
aggregator is therefore modelled from the spec below. -/

namespace CW

/-- Modelled from the spec: a playable movie record of the
continue-watching store variant, which additionally persists a
last-touched timestamp, updated on every position write (spec 4.2). -/
structure CWMovie where
  id : Nat
  title : String
  thumbPath : String
  lastPosition : Rat
  duration : Rat
  lastTouched : Nat
  deriving DecidableEq

/-- Modelled from the spec: an episode record with the persisted
last-touched timestamp. -/
structure CWEpisode where
  id : Nat
  seasonId : Nat
  episodeNumber : Int
  lastPosition : Rat
  duration : Rat
  lastTouched : Nat
  deriving DecidableEq

/-- Season row of the continue-watching store variant. -/
structure CWSeason where
  id : Nat
  showId : Nat
  seasonNumber : Int
  deriving DecidableEq

/-- Show row of the continue-watching store variant. -/
structure CWShow where
  id : Nat
  title : String
  thumbPath : String
  deriving DecidableEq

/-- The store state seen by the aggregator. -/
structure CWState where
  movies : List CWMovie
  shows : List CWShow
  seasons : List CWSeason
  episodes : List CWEpisode
  deriving DecidableEq

/-- Modelled from the spec: an output item of the aggregator, either a
movie or an episode annotated with its parent show title, the show
poster and the season number (spec 4.2). -/
inductive CWItem where
  | movie (m : CWMovie)
  | episode (e : CWEpisode) (showTitle : String) (showThumb : String) (seasonNumber : Int)
  deriving DecidableEq

/-- Selection rule for a movie: started but not finished. -/
def movieQualifies (m : CWMovie) : Bool :=
  decide (0 < m.lastPosition ∧ m.lastPosition < m.duration)

/-- Selection rule for an episode: same rule as for a movie. -/
def episodeQualifies (e : CWEpisode) : Bool :=
  decide (0 < e.lastPosition ∧ e.lastPosition < e.duration)

/-- Modelled from the spec: the annotation join, resolving the parent
season and show of an episode. -/
def annotate (st : CWState) (e : CWEpisode) : Option CWItem :=
  match st.seasons.find? (fun s => decide (s.id = e.seasonId)) with
  | none => none
  | some s =>
    match st.shows.find? (fun sh => decide (sh.id = s.showId)) with
    | none => none
    | some sh => some (CWItem.episode e sh.title sh.thumbPath s.seasonNumber)

/-- All qualifying items, before recency ordering. -/
def cwAll (st : CWState) : List CWItem :=
  (st.movies.filter movieQualifies).map CWItem.movie ++
    (st.episodes.filter episodeQualifies).filterMap (annotate st)

/-- The recency key of an item: its persisted last-touched timestamp. -/
def touchedOf : CWItem → Nat
  | CWItem.movie m => m.lastTouched
  | CWItem.episode e _ _ _ => e.lastTouched

/-- Most-recently-updated first. -/
def recencyOrd : CWItem → CWItem → Prop := fun a b => touchedOf b ≤ touchedOf a

instance : DecidableRel recencyOrd := fun a b =>
  inferInstanceAs (Decidable (touchedOf b ≤ touchedOf a))

instance : IsTotal CWItem recencyOrd :=
  ⟨fun a b => (Nat.le_total (touchedOf b) (touchedOf a)).imp id id⟩

instance : IsTrans CWItem recencyOrd :=
  ⟨fun _ _ _ hab hbc => Nat.le_trans hbc hab⟩

/-- Modelled from the spec: get_continue_watching, the unified list of
in-progress movies and episodes, most-recently-updated first, capped at
the most recent cap items (spec 4.2). -/
def getContinueWatching (cap : Nat) (st : CWState) : List CWItem :=
  (List.insertionSort recencyOrd (cwAll st)).take cap

/-- Modelled from the spec: a playback position write, which also
persists the update time as the last-touched timestamp (spec 4.2). -/
def updateMoviePosition (st : CWState) (movieId : Nat) (pos : Rat) (now : Nat) : CWState :=
  { st with
     movies := st.movies.map
       (fun m => if m.id = movieId then { m with lastPosition := pos, lastTouched := now } else m) }

end CW

/-! ### Transcode worker (src/utils/compression.py)

CompressionThread.run is a worker whose observable behaviour is the
sequence of emitted Qt signals plus the state of the destination file.
The model makes the environment explicit: the outcome of the file copy,
the probed duration, the parsed out_time samples of the encoder
progress stream, the first sample index at which the cooperative
cancel flag is seen, and the encoder exit status. -/

namespace Comp

/-- CompressionPreset (name, description, codec, crf, audio codec,
audio bitrate, extra args). -/
structure Preset where
  name : String
  description : String
  codec : String
  crf : Option Int
  audioCodec : String
  audioBitrate : String
  extraArgs : List String
  deriving DecidableEq

/-- PRESETS entry "copy". -/
def copyPreset : Preset := ⟨"No Compression", "Copy file as-is (fastest, no quality change)",
  "copy", none, "copy", "", []⟩

/-- PRESETS entry "lossless". -/
def losslessPreset : Preset := ⟨"Lossless",
  "Zero quality loss, re-encodes for optimal container (largest files)",
  "libx264", some 0, "flac", "", ["-preset", "fast"]⟩

/-- PRESETS entry "high". -/
def highPreset : Preset := ⟨"High Quality", "Visually identical to original, ~40-50% smaller",
  "libx264", some 18, "aac", "192k", ["-preset", "veryfast"]⟩

/-- PRESETS entry "balanced". -/
def balancedPreset : Preset := ⟨"Balanced", "Great quality, ~60-70% smaller",
  "libx264", some 23, "aac", "128k", ["-preset", "veryfast"]⟩

/-- PRESETS entry "space_saver". -/
def spaceSaverPreset : Preset := ⟨"Space Saver", "Good quality, ~75-85% smaller",
  "libx264", some 28, "aac", "96k", ["-preset", "ultrafast"]⟩

/-- The distinct shapes of the message argument of finished_signal.
Each constructor stands for one of the distinct literal formats emitted
by CompressionThread.run: "File copied successfully.", str(e) from the
copy branch, "Compression cancelled.", "Compression complete.",
"FFmpeg error:" followed by the diagnostic tail, and the
FileNotFoundError message. -/
inductive Msg where
  | copied
  | copyFail (err : String)
  | cancelled
  | complete
  | ffmpegErr (tail : String)
  | ffmpegMissing
  deriving DecidableEq

/-- An emitted Qt signal: progress(percent) or finished(ok, message). -/
inductive Ev where
  | prog (p : Rat)
  | fin (ok : Bool) (msg : Msg)
  deriving DecidableEq

/-- The observable outcome of one run: the emitted signals, the bytes
present at the destination path afterwards (none if no file remains),
and whether terminate() was invoked on the encoder process. -/
structure RunResult where
  events : List Ev
  output : Option (List Nat)
  terminated : Bool
  deriving DecidableEq

/-- Environment outcome of the shutil.copy2 call in the copy branch:
either it succeeds, or it raises with a message, possibly leaving
partially written bytes at the destination. -/
inductive CopyOutcome where
  | ok
  | fail (err : String) (leftover : Option (List Nat))
  deriving DecidableEq

/-- The copy branch of CompressionThread.run: progress 0, copy2,
progress 100, finished(True); on an exception, finished(False, str(e))
is emitted directly — this branch performs no cleanup, so whatever
copy2 left at the destination stays there. -/
def runCopy (input : List Nat) : CopyOutcome → RunResult
  | CopyOutcome.ok =>
    ⟨[Ev.prog 0, Ev.prog 100, Ev.fin true Msg.copied], some input, false⟩
  | CopyOutcome.fail e leftover =>
    ⟨[Ev.prog 0, Ev.fin false (Msg.copyFail e)], leftover, false⟩

/-- Environment of one encoder run. -/
structure EncEnv where
  duration : Option Rat
  samples : List Rat
  cancelAt : Option Nat
  exitOk : Bool
  errTail : String
  encodedBytes : List Nat
  deriving DecidableEq

/-- Whether the cooperative cancel flag has been set by the time sample
i is read from the progress pipe. -/
def cancelSeen (cancelAt : Option Nat) (i : Nat) : Bool :=
  match cancelAt with
  | some j => decide (j ≤ i)
  | none => false

/-- The signals produced for one out_time sample: a percentage of the
probed duration clamped to 99.9, emitted only when the duration is
known and positive (if duration and duration > 0). -/
def sampleEvents (dur : Option Rat) (t : Rat) : List Ev :=
  match dur with
  | some d => if 0 < d then [Ev.prog (min (t / d * 100) (999 / 10))] else []
  | none => []

/-- The progress-consuming loop of CompressionThread.run: each line is
preceded by the cancel check; on cancellation the process is
terminated, the partial output removed, and finished(False,
"Compression cancelled.") emitted.  Returns the emitted signals and
whether the loop ended by cancellation. -/
def encodeLoop (dur : Option Rat) (cancelAt : Option Nat) : Nat → List Rat → List Ev × Bool
  | _, [] => ([], false)
  | i, t :: rest =>
    if cancelSeen cancelAt i then ([Ev.fin false Msg.cancelled], true)
    else
      let r := encodeLoop dur cancelAt (i + 1) rest
      (sampleEvents dur t ++ r.1, r.2)

/-- The encoder branch of CompressionThread.run: run the loop; if it
was cancelled the output file has been deleted and terminate() called;
otherwise on exit code 0 emit progress 100 and finished(True), and on a
non-zero exit delete the partial output and emit finished(False,
"FFmpeg error:" and the diagnostic tail). -/
def runEncode (env : EncEnv) : RunResult :=
  let r := encodeLoop env.duration env.cancelAt 0 env.samples
  if r.2 then ⟨r.1, none, true⟩
  else if env.exitOk then
    ⟨r.1 ++ [Ev.prog 100, Ev.fin true Msg.complete], some env.encodedBytes, false⟩
  else
    ⟨r.1 ++ [Ev.fin false (Msg.ffmpegErr env.errTail)], none, false⟩

/-- CompressionThread.run: dispatch on preset.codec == "copy". -/
def run (preset : Preset) (input : List Nat) (oc : CopyOutcome) (env : EncEnv) : RunResult :=
  if preset.codec = "copy" then runCopy input oc else runEncode env

/-- The progress value carried by a signal, if it is a progress signal. -/
def progOf : Ev → Option Rat
  | Ev.prog p => some p
  | Ev.fin _ _ => none

end Comp

/-! ### Batch episode import (src/ui/add_movie_dialog.py)

_start_show_add builds a queue assigning episode number i+1 to the
i-th selected file (0-indexed) and a destination per episode; the
queue is then processed strictly sequentially by _process_next_episode
and _on_episode_complete.  The per-item transcode outcome is the
environment, modelled as a predicate on the item index. -/

namespace Batch

/-- One entry of the queue built by _start_show_add, restricted to the
fields that reach the catalog commit. -/
structure EpInput where
  title : String
  relPath : String
  deriving DecidableEq

/-- One Episode row committed by db.add_episode from
_on_episode_complete. -/
structure CommittedEp where
  seasonId : Nat
  episodeNumber : Nat
  title : String
  moviePath : String
  deriving DecidableEq

/-- The sequential loop of _process_next_episode / _on_episode_complete
starting at item index i: on success commit the row for episode number
i+1, on failure record a warning for episode i+1 and skip the row;
either way continue with the next item.  Returns the committed rows and
the warned episode numbers, in processing order. -/
def processFrom (seasonId : Nat) : Nat → List EpInput → (Nat → Bool) → List CommittedEp × List Nat
  | _, [], _ => ([], [])
  | i, e :: rest, ok =>
    let r := processFrom seasonId (i + 1) rest ok
    if ok i then (⟨seasonId, i + 1, e.title, e.relPath⟩ :: r.1, r.2)
    else (r.1, (i + 1) :: r.2)

/-- The outcome of the whole batch: the committed rows, the warned
episode numbers, and the terminal report.  _finish_show_add runs after
the last item regardless of per-item failures and reports success. -/
structure BatchResult where
  rows : List CommittedEp
  warnings : List Nat
  reportsSuccess : Bool
  deriving DecidableEq

/-- A batch import of the given episode files into one season, with
ok i telling whether the transcode job of item i succeeded. -/
def runBatch (seasonId : Nat) (eps : List EpInput) (ok : Nat → Bool) : BatchResult :=
  ⟨(processFrom seasonId 0 eps ok).1, (processFrom seasonId 0 eps ok).2, true⟩

end Batch

/-! ### Title slug (src/utils/paths.py) -/

namespace Slug

end Slug

/-! ### Supporting lemmas -/

theorem maxOfList_eq_none_iff (l : List Int) : maxOfList l = none ↔ l = [] := by
  cases l <;> simp [maxOfList]

theorem maxOfList_spec : ∀ (l : List Int) (m : Int), maxOfList l = some m →
    m ∈ l ∧ ∀ w ∈ l, w ≤ m := by
  intro l
  induction l with
  | nil => intro m h; simp [maxOfList] at h
  | cons x xs ih =>
    intro m h
    simp only [maxOfList] at h
    cases hxs : maxOfList xs with
    | none =>
      rw [hxs] at h
      have hnil : xs = [] := (maxOfList_eq_none_iff xs).mp hxs
      subst hnil
      simp only [Option.some.injEq] at h
      subst h
      exact ⟨List.mem_singleton_self x, by simp⟩
    | some mx =>
      rw [hxs] at h
      simp only [Option.some.injEq] at h
      subst h
      obtain ⟨hmem, hbound⟩ := ih mx hxs
      constructor
      · rcases max_choice x mx with hc | hc
        · rw [hc]; exact List.mem_cons_self x xs
        · rw [hc]; exact List.mem_cons_of_mem x hmem
      · intro w hw
        rcases List.mem_cons.mp hw with hw | hw
        · rw [hw]; exact le_max_left x mx
        · exact le_trans (hbound w hw) (le_max_right x mx)

/-- C8: getNextSeasonNumber returns 1 for a show with no season rows,
and the maximum existing season number plus 1 otherwise. -/
theorem C8_getNextSeasonNumber_correct (db : DB) (showId : Nat) :
    (db.seasons.filter (fun s => decide (s.showId = showId)) = [] →
      db.getNextSeasonNumber showId = 1) ∧
    (∀ v : Int,
      v ∈ (db.seasons.filter (fun s => decide (s.showId = showId))).map SeasonRow.seasonNumber →
      (∀ w ∈ (db.seasons.filter (fun s => decide (s.showId = showId))).map
          SeasonRow.seasonNumber, w ≤ v) →
      db.getNextSeasonNumber showId = v + 1) := by
  constructor
  · intro h
    simp [DB.getNextSeasonNumber, h, maxOfList, pyOrZero]
  · intro v hv hbound
    have hne : (db.seasons.filter (fun s => decide (s.showId = showId))).map
        SeasonRow.seasonNumber ≠ [] := List.ne_nil_of_mem hv
    cases hmx : maxOfList ((db.seasons.filter (fun s => decide (s.showId = showId))).map
        SeasonRow.seasonNumber) with
    | none => exact absurd ((maxOfList_eq_none_iff _).mp hmx) hne
    | some m =>
      obtain ⟨hmem, hmax⟩ := maxOfList_spec _ m hmx
      have hvm : v = m := le_antisymm (hmax v hv) (hbound m hmem)
      subst hvm
      simp only [DB.getNextSeasonNumber, hmx, pyOrZero]
      split_ifs with h0
      · omega
      · rfl

/-- A catalog with one show (id 1) that owns season 1 with one
episode, used to instantiate the season and deletion theorems. -/
def dbShowEx : DB :=
  ⟨[], [⟨1, "Show", "p.jpg", 0⟩], [⟨1, 1, 1, 0⟩], [⟨1, 1, 1, "Ep", "m.mp4", 0, 0, 0⟩],
   1, 2, 2, 2⟩

/-- A catalog whose show 7 owns seasons numbered 1, 2 and 4. -/
def dbSeasonsEx : DB :=
  ⟨[], [⟨7, "S", "p.jpg", 0⟩], [⟨1, 7, 1, 0⟩, ⟨2, 7, 2, 0⟩, ⟨3, 7, 4, 0⟩], [], 1, 8, 4, 1⟩

/-- Witness for C8: seasons numbered 1, 2 and 4 yield 5, and a show
with no seasons yields 1. -/
theorem C8_getNextSeasonNumber_correct_witness :
    dbSeasonsEx.getNextSeasonNumber 7 = 4 + 1 ∧ dbSeasonsEx.getNextSeasonNumber 9 = 1 :=
  ⟨(C8_getNextSeasonNumber_correct dbSeasonsEx 7).2 4 (by decide) (by decide),
   (C8_getNextSeasonNumber_correct dbSeasonsEx 9).1 (by decide)⟩

/-- C9: deleting a show removes the show from lookup and removes every
season and episode that belonged to it; deleting an unknown id returns
not-found and leaves the store unchanged. -/
theorem C9_deleteShow_cascades (db : DB) (showId : Nat) :
    (db.getShow showId = none → db.deleteShow showId = (none, db)) ∧
    (∀ t, db.getShow showId = some t →
      (db.deleteShow showId).2.getShow showId = none ∧
      (∀ s ∈ (db.deleteShow showId).2.seasons, s.showId ≠ showId) ∧
      (∀ e ∈ (db.deleteShow showId).2.episodes, ∀ s ∈ db.seasons,
        s.showId = showId → e.seasonId ≠ s.id)) := by
  constructor
  · intro h
    simp [DB.deleteShow, h]
  · intro t ht
    have hdel : db.deleteShow showId =
        (some t,
         { db with
            shows := db.shows.filter (fun r => decide (r.id ≠ showId))
            seasons := db.seasons.filter (fun s => decide (s.showId ≠ showId))
            episodes := db.episodes.filter
              (fun e => decide (¬ ∃ s ∈ db.seasons, s.showId = showId ∧ s.id = e.seasonId)) }) := by
      simp [DB.deleteShow, ht]
    refine ⟨?_, ?_, ?_⟩
    · have hf : List.find? (fun r => decide (r.id = showId))
          (List.filter (fun r => decide (r.id ≠ showId)) db.shows) = none := by
        rw [List.find?_eq_none]
        intro x hx
        rcases List.mem_filter.mp hx with ⟨_, hx2⟩
        simpa using hx2
      rw [hdel]
      simp only [DB.getShow]
      rw [hf]
      rfl
    · intro s hs
      rw [hdel] at hs
      rcases List.mem_filter.mp hs with ⟨_, hs2⟩
      simpa using hs2
    · intro e he s hs hshow heq
      rw [hdel] at he
      rcases List.mem_filter.mp he with ⟨_, he2⟩
      rw [decide_eq_true_eq] at he2
      exact he2 ⟨s, hs, hshow, heq.symm⟩

/-- Witness for C9: deleting show 1 makes it unfindable; deleting the
absent show 9 returns not-found and changes nothing. -/
theorem C9_deleteShow_cascades_witness :
    (dbShowEx.deleteShow 1).2.getShow 1 = none ∧ dbShowEx.deleteShow 9 = (none, dbShowEx) :=
  ⟨((C9_deleteShow_cascades dbShowEx 1).2
      ⟨⟨1, "Show", "p.jpg", 0⟩, [⟨⟨1, 1, 1, 0⟩, [⟨1, 1, 1, "Ep", "m.mp4", 0, 0, 0⟩]⟩]⟩
      (by rfl)).1,
   (C9_deleteShow_cascades dbShowEx 9).1 (by rfl)⟩

/-- C7: a run with the "copy" preset whose copy succeeds yields an
output byte-identical to the input, emits exactly the progress values 0
and 100, and reports success. -/
theorem C7_copy_success (input : List Nat) (oc : Comp.CopyOutcome) (env : Comp.EncEnv)
    (h : oc = Comp.CopyOutcome.ok) :
    (Comp.run Comp.copyPreset input oc env).output = some input ∧
    (Comp.run Comp.copyPreset input oc env).events.filterMap Comp.progOf = [0, 100] ∧
    (Comp.run Comp.copyPreset input oc env).events.getLast? =
      some (Comp.Ev.fin true Comp.Msg.copied) := by
  subst h
  exact ⟨rfl, rfl, rfl⟩

/-- An arbitrary encoder environment, unused by the copy branch. -/
def envUnused : Comp.EncEnv := ⟨none, [], none, true, "", []⟩

/-- Witness for C7 on a concrete four-byte input. -/
theorem C7_copy_success_witness :
    (Comp.run Comp.copyPreset [10, 20, 30, 40] Comp.CopyOutcome.ok envUnused).output =
      some [10, 20, 30, 40] ∧
    (Comp.run Comp.copyPreset [10, 20, 30, 40] Comp.CopyOutcome.ok envUnused).events.filterMap
      Comp.progOf = [0, 100] ∧
    (Comp.run Comp.copyPreset [10, 20, 30, 40] Comp.CopyOutcome.ok envUnused).events.getLast? =
      some (Comp.Ev.fin true Comp.Msg.copied) :=
  C7_copy_success [10, 20, 30, 40] Comp.CopyOutcome.ok envUnused rfl

/-- C2: evaluation of the copy branch at a failing input.  When copy2
raises after writing part of the destination file, the run reports
failure with the underlying message, yet the partially written bytes
are still present at the destination when the failure signal is
delivered: the except branch of the copy path never calls _cleanup. -/
theorem C2_copy_failure_leaves_partial_output :
    (Comp.run Comp.copyPreset [10, 20, 30, 40]
        (Comp.CopyOutcome.fail "No space left on device" (some [10, 20])) envUnused).events =
      [Comp.Ev.prog 0, Comp.Ev.fin false (Comp.Msg.copyFail "No space left on device")] ∧
    (Comp.run Comp.copyPreset [10, 20, 30, 40]
        (Comp.CopyOutcome.fail "No space left on device" (some [10, 20])) envUnused).output =
      some [10, 20] :=
  ⟨rfl, rfl⟩

theorem length_filter_ne_of_mem :
    ∀ (n s k : Nat), s ≤ k → k < s + n →
      ((List.range' s n).filter (fun m => decide (m ≠ k))).length = n - 1 := by
  intro n
  induction n with
  | zero => intro s k h1 h2; omega
  | succ n ih =>
    intro s k h1 h2
    rw [List.range'_succ, List.filter_cons]
    by_cases hs : s = k
    · have hd : (decide (s ≠ k)) = false := by simp [hs]
      rw [hd]
      simp only [Bool.false_eq_true, if_false]
      have hall : (List.range' (s + 1) n).filter (fun m => decide (m ≠ k)) =
          List.range' (s + 1) n := by
        rw [List.filter_eq_self]
        intro a ha
        rcases List.mem_range'.mp ha with ⟨i, hi, hai⟩
        simp only [decide_eq_true_eq]
        omega
      rw [hall, List.length_range']
      omega
    · have hd : (decide (s ≠ k)) = true := by simp [hs]
      rw [hd]
      simp only [if_true]
      rw [List.length_cons, ih (s + 1) k (by omega) (by omega)]
      omega

theorem processFrom_fail_k (sid k : Nat) :
    ∀ (eps : List Batch.EpInput) (s : Nat),
      (Batch.processFrom sid s eps (fun i => decide (i + 1 ≠ k))).1.map
          (fun r => r.episodeNumber) =
        (List.range' (s + 1) eps.length).filter (fun m => decide (m ≠ k)) ∧
      (Batch.processFrom sid s eps (fun i => decide (i + 1 ≠ k))).2 =
        (if s + 1 ≤ k ∧ k ≤ s + eps.length then [k] else []) ∧
      ∀ r ∈ (Batch.processFrom sid s eps (fun i => decide (i + 1 ≠ k))).1,
        r.seasonId = sid := by
  intro eps
  induction eps with
  | nil =>
    intro s
    refine ⟨rfl, ?_, by simp [Batch.processFrom]⟩
    simp only [Batch.processFrom, List.length_nil, List.range'_zero, List.filter_nil]
    rw [if_neg (by omega)]
  | cons e rest ih =>
    intro s
    obtain ⟨ihm, ihw, ihs⟩ := ih (s + 1)
    by_cases hk : s + 1 = k
    · have hok : (decide (s + 1 ≠ k)) = false := by simp [hk]
      simp only [Batch.processFrom, hok, Bool.false_eq_true, if_false, List.length_cons,
        List.range'_succ, List.filter_cons]
      refine ⟨?_, ?_, ?_⟩
      · exact ihm
      · rw [ihw, if_neg (by omega), if_pos (by omega), hk]
      · exact ihs
    · have hok : (decide (s + 1 ≠ k)) = true := by simp [hk]
      simp only [Batch.processFrom, hok, if_true, List.length_cons,
        List.range'_succ, List.filter_cons, List.map_cons]
      refine ⟨?_, ?_, ?_⟩
      · rw [ihm]
      · rw [ihw]
        split_ifs <;> first | rfl | omega
      · intro r hr
        rcases List.mem_cons.mp hr with hr | hr
        · rw [hr]
        · exact ihs r hr

/-- C4: a batch import of n episode files in which exactly the k-th
item's transcode job fails commits rows for episode numbers 1..n with
k absent (n-1 rows, all in the requested season), records a single
warning naming episode k, and still reports overall success. -/
theorem C4_batch_skips_failed_item (sid : Nat) (eps : List Batch.EpInput) (k n : Nat)
    (hn : eps.length = n) (hk1 : 1 ≤ k) (hkn : k ≤ n) :
    (Batch.runBatch sid eps (fun i => decide (i + 1 ≠ k))).rows.map
        (fun r => r.episodeNumber) =
      (List.range' 1 n).filter (fun m => decide (m ≠ k)) ∧
    (Batch.runBatch sid eps (fun i => decide (i + 1 ≠ k))).rows.length = n - 1 ∧
    (∀ r ∈ (Batch.runBatch sid eps (fun i => decide (i + 1 ≠ k))).rows, r.seasonId = sid) ∧
    (Batch.runBatch sid eps (fun i => decide (i + 1 ≠ k))).warnings = [k] ∧
    (Batch.runBatch sid eps (fun i => decide (i + 1 ≠ k))).reportsSuccess = true := by
  obtain ⟨hm, hw, hs⟩ := processFrom_fail_k sid k eps 0
  subst hn
  simp only [Batch.runBatch]
  refine ⟨hm, ?_, hs, ?_, trivial⟩
  · have hlen : ((Batch.processFrom sid 0 eps (fun i => decide (i + 1 ≠ k))).1.map
        (fun r => r.episodeNumber)).length = (Batch.processFrom sid 0 eps
        (fun i => decide (i + 1 ≠ k))).1.length := List.length_map _ _
    rw [← hlen, hm, length_filter_ne_of_mem eps.length 1 k (by omega) (by omega)]
  · rw [hw, if_pos (by omega)]

/-- The five-episode input files of the batch witness. -/
def epsEx : List Batch.EpInput :=
  [⟨"e1", "p1"⟩, ⟨"e2", "p2"⟩, ⟨"e3", "p3"⟩, ⟨"e4", "p4"⟩, ⟨"e5", "p5"⟩]

/-- Witness for C4: five episodes with item 3 failing commit rows
numbered 1, 2, 4, 5, warn once about episode 3 and report success. -/
theorem C4_batch_skips_failed_item_witness :
    (Batch.runBatch 9 epsEx (fun i => decide (i + 1 ≠ 3))).rows.map
        (fun r => r.episodeNumber) = [1, 2, 4, 5] ∧
    (Batch.runBatch 9 epsEx (fun i => decide (i + 1 ≠ 3))).warnings = [3] ∧
    (Batch.runBatch 9 epsEx (fun i => decide (i + 1 ≠ 3))).reportsSuccess = true := by
  have h := C4_batch_skips_failed_item 9 epsEx 3 5 rfl (by decide) (by decide)
  exact ⟨h.1.trans (by decide), h.2.2.2.1, h.2.2.2.2⟩

theorem encodeLoop_prog_le (dur : Option Rat) (cancelAt : Option Nat) :
    ∀ (samples : List Rat) (i : Nat) (p : Rat),
      Comp.Ev.prog p ∈ (Comp.encodeLoop dur cancelAt i samples).1 → p ≤ 999 / 10 := by
  intro samples
  induction samples with
  | nil => intro i p hp; simp [Comp.encodeLoop] at hp
  | cons t rest ih =>
    intro i p hp
    simp only [Comp.encodeLoop] at hp
    by_cases hc : Comp.cancelSeen cancelAt i = true
    · rw [if_pos hc] at hp
      simp at hp
    · rw [if_neg hc] at hp
      rcases List.mem_append.mp hp with hp | hp
      · cases hd : dur with
        | none =>
          rw [hd] at hp
          simp [Comp.sampleEvents] at hp
        | some d =>
          rw [hd] at hp
          simp only [Comp.sampleEvents] at hp
          by_cases hd0 : (0 : Rat) < d
          · rw [if_pos hd0] at hp
            simp only [List.mem_singleton, Comp.Ev.prog.injEq] at hp
            rw [hp]
            exact min_le_right _ _
          · rw [if_neg hd0] at hp
            simp at hp
      · exact ih (i + 1) p hp

theorem encodeLoop_cancelled (dur : Option Rat) (j : Nat) :
    ∀ (samples : List Rat) (i : Nat), i ≤ j → j < i + samples.length →
      (Comp.encodeLoop dur (some j) i samples).2 = true ∧
      (Comp.encodeLoop dur (some j) i samples).1.getLast? =
        some (Comp.Ev.fin false Comp.Msg.cancelled) := by
  intro samples
  induction samples with
  | nil => intro i h1 h2; simp at h2; omega
  | cons t rest ih =>
    intro i h1 h2
    by_cases hc : j ≤ i
    · have hseen : Comp.cancelSeen (some j) i = true := by
        simp [Comp.cancelSeen, hc]
      simp [Comp.encodeLoop, hseen]
    · have hseen : Comp.cancelSeen (some j) i = false := by
        simp only [Comp.cancelSeen, decide_eq_false_iff_not]
        omega
      have hrec := ih (i + 1) (by omega) (by simp at h2; omega)
      simp only [Comp.encodeLoop, hseen, Bool.false_eq_true, if_false]
      refine ⟨hrec.1, ?_⟩
      show (Comp.sampleEvents dur t ++ (Comp.encodeLoop dur (some j) (i + 1) rest).1).getLast? =
        some (Comp.Ev.fin false Comp.Msg.cancelled)
      rw [List.getLast?_append, hrec.2]
      rfl

/-- C6: in a non-copy run with a known positive duration, every
progress value derived from an out_time sample is clamped to at most
99.9, and the value 100 is only ever delivered from the
post-exit branch, which requires the encoder to have exited with
success (and never from a sample). -/
theorem C6_progress_clamped (preset : Comp.Preset) (input : List Nat)
    (oc : Comp.CopyOutcome) (env : Comp.EncEnv) (d : Rat)
    (hp : preset.codec ≠ "copy") (hd : env.duration = some d) (hd0 : 0 < d) :
    (∀ p : Rat, Comp.Ev.prog p ∈ (Comp.encodeLoop env.duration env.cancelAt 0 env.samples).1 →
      p ≤ 999 / 10) ∧
    (Comp.Ev.prog 100 ∈ (Comp.run preset input oc env).events →
      env.exitOk = true ∧
      Comp.Ev.prog 100 ∉ (Comp.encodeLoop env.duration env.cancelAt 0 env.samples).1) := by
  have hclamp := encodeLoop_prog_le env.duration env.cancelAt env.samples 0
  have h100 : ¬ ((100 : Rat) ≤ 999 / 10) := by norm_num
  have hnotin : Comp.Ev.prog 100 ∉
      (Comp.encodeLoop env.duration env.cancelAt 0 env.samples).1 := by
    intro hmem
    exact h100 (hclamp 100 hmem)
  refine ⟨fun p => hclamp p, ?_⟩
  intro hmem
  rw [Comp.run, if_neg hp] at hmem
  simp only [Comp.runEncode] at hmem
  by_cases hcan : (Comp.encodeLoop env.duration env.cancelAt 0 env.samples).2 = true
  · rw [if_pos hcan] at hmem
    exact absurd hmem hnotin
  · rw [if_neg hcan] at hmem
    by_cases hexit : env.exitOk = true
    · exact ⟨hexit, hnotin⟩
    · rw [if_neg hexit] at hmem
      rcases List.mem_append.mp hmem with hmem | hmem
      · exact absurd hmem hnotin
      · simp at hmem

/-- The encoder environment of the C6 witness: duration 100 seconds,
two samples, no cancellation, successful exit. -/
def envEncodeEx : Comp.EncEnv := ⟨some 100, [50, 200], none, true, "tail", [7]⟩

/-- Witness for C6 on a concrete non-copy run. -/
theorem C6_progress_clamped_witness :
    (∀ p : Rat,
      Comp.Ev.prog p ∈ (Comp.encodeLoop envEncodeEx.duration envEncodeEx.cancelAt 0
        envEncodeEx.samples).1 → p ≤ 999 / 10) ∧
    (Comp.Ev.prog 100 ∈ (Comp.run Comp.highPreset [1, 2] Comp.CopyOutcome.ok
        envEncodeEx).events →
      envEncodeEx.exitOk = true ∧
      Comp.Ev.prog 100 ∉ (Comp.encodeLoop envEncodeEx.duration envEncodeEx.cancelAt 0
        envEncodeEx.samples).1) :=
  C6_progress_clamped Comp.highPreset [1, 2] Comp.CopyOutcome.ok envEncodeEx 100
    (by decide) rfl (by norm_num)

/-- C3: a non-copy run whose cancel flag is observed at some sample
terminates the encoder process, leaves no file at the destination path
and ends with the distinguished cancelled signal, which differs from
every encode-failure signal. -/
theorem C3_cancel_terminates_and_cleans (preset : Comp.Preset) (input : List Nat)
    (oc : Comp.CopyOutcome) (env : Comp.EncEnv) (j : Nat)
    (hp : preset.codec ≠ "copy") (hc : env.cancelAt = some j)
    (hj : j < env.samples.length) :
    (Comp.run preset input oc env).output = none ∧
    (Comp.run preset input oc env).terminated = true ∧
    (Comp.run preset input oc env).events.getLast? =
      some (Comp.Ev.fin false Comp.Msg.cancelled) ∧
    (∀ s, Comp.Msg.cancelled ≠ Comp.Msg.ffmpegErr s) := by
  have hloop := encodeLoop_cancelled env.duration j env.samples 0 (Nat.zero_le j)
    (by omega)
  rw [Comp.run, if_neg hp]
  simp only [Comp.runEncode, hc]
  rw [if_pos hloop.1]
  exact ⟨rfl, rfl, hloop.2, fun s h => Comp.Msg.noConfusion h⟩

/-- The encoder environment of the C3 witness: cancellation observed
from the second sample on. -/
def envCancelEx : Comp.EncEnv := ⟨some 100, [50, 60, 70], some 1, true, "tail", [7]⟩

/-- Witness for C3 on a concrete cancelled run. -/
theorem C3_cancel_terminates_and_cleans_witness :
    (Comp.run Comp.highPreset [1, 2] Comp.CopyOutcome.ok envCancelEx).output = none ∧
    (Comp.run Comp.highPreset [1, 2] Comp.CopyOutcome.ok envCancelEx).terminated = true ∧
    (Comp.run Comp.highPreset [1, 2] Comp.CopyOutcome.ok envCancelEx).events.getLast? =
      some (Comp.Ev.fin false Comp.Msg.cancelled) ∧
    (∀ s, Comp.Msg.cancelled ≠ Comp.Msg.ffmpegErr s) :=
  C3_cancel_terminates_and_cleans Comp.highPreset [1, 2] Comp.CopyOutcome.ok envCancelEx 1
    (by decide) rfl (by decide)

/-- C5 (amended): on a catalog whose movie rows carry strictly
increasing rowids, the title-ascending listing is a permutation of the
rows in case-insensitively non-decreasing title order with ties broken
by insertion order; the descending listing is the exact reverse of the
ascending one whenever no two titles are case-insensitively equal (on a
tie both directions keep insertion order, so the reversal fails —
see the counterexample). -/
theorem C5_listMovies_title_order (db : DB)
    (hids : db.movies.Pairwise (fun a b => a.id < b.id)) :
    (db.getAllMovies "title" true).Perm db.movies ∧
    (db.getAllMovies "title" true).Pairwise (fun a b =>
      lowerKey a.title < lowerKey b.title ∨
        (lowerKey a.title = lowerKey b.title ∧ a.id < b.id)) ∧
    (db.movies.Pairwise (fun a b => lowerKey a.title ≠ lowerKey b.title) →
      db.getAllMovies "title" false = (db.getAllMovies "title" true).reverse) := by
  have hdef : ∀ b : Bool, db.getAllMovies "title" b =
      List.insertionSort (stableOrd (fun m => lowerKey m.title) MovieRow.id b) db.movies := by
    intro b
    simp [DB.getAllMovies]
  have hperm : ∀ b : Bool, (db.getAllMovies "title" b).Perm db.movies := by
    intro b
    rw [hdef b]
    exact List.perm_insertionSort _ _
  have hsorted : ∀ b : Bool, (db.getAllMovies "title" b).Pairwise
      (stableOrd (fun m => lowerKey m.title) MovieRow.id b) := by
    intro b
    rw [hdef b]
    exact List.sorted_insertionSort _ _
  have hidne : db.movies.Pairwise (fun a b => a.id ≠ b.id) :=
    hids.imp (fun hab => Nat.ne_of_lt hab)
  have hidInj : ∀ a ∈ db.movies, ∀ b ∈ db.movies, a.id = b.id → a = b := by
    intro a ha b hb hab
    by_contra hne
    exact hidne.forall (by intro x y h he; exact h he.symm) ha hb hne hab
  refine ⟨hperm true, ?_, ?_⟩
  · have hidneS : (db.getAllMovies "title" true).Pairwise (fun a b => a.id ≠ b.id) :=
      ((hperm true).pairwise_iff (fun h he => h he.symm)).mpr hidne
    refine ((hsorted true).and hidneS).imp ?_
    intro a b hab
    obtain ⟨hord, hne⟩ := hab
    simp only [stableOrd] at hord
    rcases hord with h | ⟨he, hle⟩
    · exact Or.inl h
    · exact Or.inr ⟨he, Nat.lt_of_le_of_ne hle hne⟩
  · intro hnt
    have hntS : (db.getAllMovies "title" true).Pairwise
        (fun a b => lowerKey a.title ≠ lowerKey b.title) :=
      ((hperm true).pairwise_iff (fun h he => h he.symm)).mpr hnt
    have hrevSorted : ((db.getAllMovies "title" true).reverse).Pairwise
        (stableOrd (fun m => lowerKey m.title) MovieRow.id false) := by
      rw [List.pairwise_reverse]
      refine ((hsorted true).and hntS).imp ?_
      intro a b hab
      obtain ⟨hord, hne⟩ := hab
      simp only [stableOrd] at hord ⊢
      rcases hord with h | ⟨he, _⟩
      · exact Or.inl h
      · exact absurd he hne
    have hpermRev : (db.getAllMovies "title" false).Perm
        ((db.getAllMovies "title" true).reverse) :=
      (hperm false).trans ((hperm true).symm.trans (List.reverse_perm _).symm)
    have hanti : ∀ a ∈ db.getAllMovies "title" false, ∀ b ∈ db.getAllMovies "title" false,
        stableOrd (fun m => lowerKey m.title) MovieRow.id false a b →
        stableOrd (fun m => lowerKey m.title) MovieRow.id false b a → a = b := by
      intro a ha b hb h1 h2
      have haM : a ∈ db.movies := (hperm false).subset ha
      have hbM : b ∈ db.movies := (hperm false).subset hb
      simp only [stableOrd] at h1 h2
      rcases h1 with h1 | ⟨he1, hle1⟩ <;> rcases h2 with h2 | ⟨he2, hle2⟩
      · exact absurd h2 (lt_asymm h1)
      · exact absurd (lt_of_lt_of_eq h1 he2) (lt_irrefl _)
      · exact absurd (lt_of_lt_of_eq h2 he1) (lt_irrefl _)
      · exact hidInj a haM b hbM (Nat.le_antisymm hle1 hle2)
    exact eq_of_perm_of_sorted_mem hpermRev (hsorted false) hrevSorted hanti

/-- Two movies whose titles differ only in case: a tie of the
case-insensitive sort key. -/
def dbTieEx : DB :=
  ⟨[⟨1, "A", "pa", "ta", 0, 0, 0⟩, ⟨2, "a", "pb", "tb", 0, 0, 0⟩], [], [], [], 3, 1, 1, 1⟩

/-- Counterexample for C5 as stated: with a case-insensitive title tie
the descending listing is not the reverse of the ascending one — both
keep rowid order on the tied pair. -/
theorem C5_desc_not_reverse_on_tie :
    DB.getAllMovies dbTieEx "title" false ≠
      (DB.getAllMovies dbTieEx "title" true).reverse := by
  decide

/-- A tie-free catalog on which the amended C5 is instantiated. -/
def dbNoTieEx : DB :=
  ⟨[⟨1, "b", "pa", "ta", 0, 0, 0⟩, ⟨2, "A", "pb", "tb", 0, 0, 0⟩], [], [], [], 3, 1, 1, 1⟩

/-- Witness for C5 on a concrete tie-free catalog. -/
theorem C5_listMovies_title_order_witness :
    (DB.getAllMovies dbNoTieEx "title" true).Perm dbNoTieEx.movies ∧
    DB.getAllMovies dbNoTieEx "title" false =
      (DB.getAllMovies dbNoTieEx "title" true).reverse :=
  ⟨(C5_listMovies_title_order dbNoTieEx (by decide)).1,
   (C5_listMovies_title_order dbNoTieEx (by decide)).2.2 (by decide)⟩

/-- C1: the continue-watching query contains a movie exactly when
0 < position < duration, contains an episode under the same rule
annotated with its parent show title, poster and season number, is
ordered most-recently-updated first (an item with a strictly larger
last-touched time precedes one with a smaller one), and every position
write stamps the item with the write time.  Stated under the hypothesis
that no more than the result cap qualifies, since the query keeps only
the cap most recent items. -/
theorem C1_continue_watching (st : CW.CWState) (cap : Nat)
    (hcap : (CW.cwAll st).length ≤ cap) :
    (∀ m ∈ st.movies, (CW.CWItem.movie m ∈ CW.getContinueWatching cap st ↔
      (0 < m.lastPosition ∧ m.lastPosition < m.duration))) ∧
    (∀ e ∈ st.episodes, ∀ s, st.seasons.find? (fun x => decide (x.id = e.seasonId)) = some s →
      ∀ sh, st.shows.find? (fun x => decide (x.id = s.showId)) = some sh →
      (CW.CWItem.episode e sh.title sh.thumbPath s.seasonNumber ∈
          CW.getContinueWatching cap st ↔
        (0 < e.lastPosition ∧ e.lastPosition < e.duration))) ∧
    (∀ i j : Fin (CW.getContinueWatching cap st).length,
      CW.touchedOf ((CW.getContinueWatching cap st).get i) <
        CW.touchedOf ((CW.getContinueWatching cap st).get j) → (j : Nat) < (i : Nat)) ∧
    (∀ mid pos now, ∀ m ∈ (CW.updateMoviePosition st mid pos now).movies,
      m.id = mid → m.lastTouched = now) := by
  have htake : CW.getContinueWatching cap st =
      List.insertionSort CW.recencyOrd (CW.cwAll st) := by
    unfold CW.getContinueWatching
    apply List.take_of_length_le
    rw [(List.perm_insertionSort _ _).length_eq]
    exact hcap
  have hcw : ∀ x, x ∈ CW.getContinueWatching cap st ↔ x ∈ CW.cwAll st := by
    intro x
    rw [htake, List.mem_insertionSort]
  refine ⟨?_, ?_, ?_, ?_⟩
  · intro m hm
    rw [hcw]
    constructor
    · intro hmem
      unfold CW.cwAll at hmem
      rcases List.mem_append.mp hmem with h | h
      · rcases List.mem_map.mp h with ⟨m2, hm2, heq⟩
        cases heq
        rcases List.mem_filter.mp hm2 with ⟨_, hq⟩
        unfold CW.movieQualifies at hq
        exact of_decide_eq_true hq
      · rcases List.mem_filterMap.mp h with ⟨e, _, hann⟩
        unfold CW.annotate at hann
        split at hann
        · exact absurd hann (by simp)
        · split at hann
          · exact absurd hann (by simp)
          · exact absurd hann (by simp)
    · intro hq
      unfold CW.cwAll
      apply List.mem_append.mpr
      left
      refine List.mem_map.mpr ⟨m, List.mem_filter.mpr ⟨hm, ?_⟩, rfl⟩
      unfold CW.movieQualifies
      exact decide_eq_true hq
  · intro e he s hfs sh hfsh
    rw [hcw]
    constructor
    · intro hmem
      unfold CW.cwAll at hmem
      rcases List.mem_append.mp hmem with h | h
      · rcases List.mem_map.mp h with ⟨m2, _, heq⟩
        exact absurd heq (by simp)
      · rcases List.mem_filterMap.mp h with ⟨e2, he2, hann⟩
        unfold CW.annotate at hann
        split at hann
        · exact absurd hann (by simp)
        · split at hann
          · exact absurd hann (by simp)
          · simp only [Option.some.injEq, CW.CWItem.episode.injEq] at hann
            obtain ⟨he2e, _, _, _⟩ := hann
            subst he2e
            rcases List.mem_filter.mp he2 with ⟨_, hq⟩
            unfold CW.episodeQualifies at hq
            exact of_decide_eq_true hq
    · intro hq
      unfold CW.cwAll
      apply List.mem_append.mpr
      right
      apply List.mem_filterMap.mpr
      refine ⟨e, List.mem_filter.mpr ⟨he, ?_⟩, ?_⟩
      · unfold CW.episodeQualifies
        exact decide_eq_true hq
      · simp only [CW.annotate, hfs, hfsh]
  · have hsorted : (CW.getContinueWatching cap st).Pairwise CW.recencyOrd := by
      rw [htake]
      exact List.sorted_insertionSort _ _
    intro i j hij
    by_contra hji
    have hle : (i : Nat) ≤ (j : Nat) := Nat.not_lt.mp hji
    rcases Nat.eq_or_lt_of_le hle with heq | hlt
    · have : i = j := Fin.ext heq
      rw [this] at hij
      exact Nat.lt_irrefl _ hij
    · have hrel := List.Sorted.rel_get_of_lt hsorted (show i < j from hlt)
      exact Nat.lt_irrefl _ (Nat.lt_of_lt_of_le hij hrel)
  · intro mid pos now m hm hid
    unfold CW.updateMoviePosition at hm
    simp only [List.mem_map] at hm
    obtain ⟨m0, _, heq⟩ := hm
    by_cases h0 : m0.id = mid
    · rw [if_pos h0] at heq
      rw [← heq]
    · rw [if_neg h0] at heq
      rw [← heq] at hid
      exact absurd hid h0

/-- The continue-watching state of the C1 witness: one in-progress
movie (touched at time 5) and one in-progress episode (touched at
time 9) whose season 2 belongs to the single show. -/
def cwStateEx : CW.CWState :=
  ⟨[⟨1, "M", "tm.jpg", 50, 100, 5⟩], [⟨1, "S", "ts.jpg"⟩], [⟨1, 1, 2⟩],
   [⟨1, 1, 3, 40, 80, 9⟩]⟩

/-- Witness for C1: both concrete in-progress items are selected into
the capped view. -/
theorem C1_continue_watching_witness :
    CW.CWItem.movie ⟨1, "M", "tm.jpg", 50, 100, 5⟩ ∈ CW.getContinueWatching 10 cwStateEx ∧
    CW.CWItem.episode ⟨1, 1, 3, 40, 80, 9⟩ "S" "ts.jpg" 2 ∈
      CW.getContinueWatching 10 cwStateEx :=
  ⟨((C1_continue_watching cwStateEx 10 (by decide)).1 ⟨1, "M", "tm.jpg", 50, 100, 5⟩
      (by decide)).mpr ⟨by norm_num, by norm_num⟩,
   ((C1_continue_watching cwStateEx 10 (by decide)).2.1 ⟨1, 1, 3, 40, 80, 9⟩ (by decide)
      ⟨1, 1, 2⟩ (by decide) ⟨1, "S", "ts.jpg"⟩ (by decide)).mpr ⟨by norm_num, by norm_num⟩⟩

end BebeLib
